import Mathlib

/-!
Verification of the price-time-priority limit order book matching engine
(`orderbook.hpp`).  The C++ implementation is shallowly embedded: the
`std::map<int64_t, deque<Order*>>` price-level indices become sorted
association lists of levels, the `unordered_map<uint64_t, Order>` registry
becomes an association list, the aliasing between queue pointers and the
registry record is made explicit by updating both structures in lockstep,
and the monotonic nanosecond clock becomes a counter threaded through the
operations (each `getCurrentTimeNs()` call reads and advances it).
All machine integers stay well inside their ranges on the inputs considered
(quantities are `uint32_t`, prices `int64_t`), so `Nat`/`Int` model them
directly; the one subtraction that could underflow (`needed -=` in
`canFullyFill`) is guarded by the source itself.
-/

inductive Side where
  | Buy
  | Sell
deriving DecidableEq, Repr

inductive OrderType where
  | Limit
  | Market
deriving DecidableEq, Repr

inductive TimeInForce where
  | GTC
  | IOC
  | FOK
  | GFD
deriving DecidableEq, Repr

structure Order where
  id : Nat
  side : Side
  priceTick : Int
  quantity : Nat
  type : OrderType
  tif : TimeInForce
  ownerId : Nat
  timestamp : Nat
deriving DecidableEq, Repr

structure Fill where
  makerOrderId : Nat
  takerOrderId : Nat
  quantity : Nat
  priceTick : Int
  timestamp : Nat
deriving DecidableEq, Repr

/-- One price level: the price tick and the FIFO queue of resting orders
(front of the list = front of the `std::deque`). -/
abbrev Level := Int × List Order

structure Stats where
  ordersProcessed : Nat
  fillsGenerated : Nat
  avgProcessingTimeNs : Nat
deriving DecidableEq, Repr

/-- The order book state: `bids` and `asks` are the two `std::map`s, kept as
association lists sorted by ascending price tick (the `std::map` iteration
order); `orders` is the id-indexed registry `orders_`; `orderCount`,
`bestBidTick`, `bestAskTick` are the atomic counters/hints. -/
structure BookState where
  bids : List Level
  asks : List Level
  orders : List (Nat × Order)
  orderCount : Nat
  bestBidTick : Int
  bestAskTick : Int
  stats : Stats
deriving DecidableEq, Repr

/-- `orders_.find(id)` on the registry association list. -/
def lookupOrder : List (Nat × Order) → Nat → Option Order
  | [], _ => none
  | (k, o) :: rest, i => if k = i then some o else lookupOrder rest i

/-- `orders_.erase(id)`. -/
def eraseOrder : List (Nat × Order) → Nat → List (Nat × Order)
  | [], _ => []
  | (k, o) :: rest, i => if k = i then rest else (k, o) :: eraseOrder rest i

/-- `orders_[id] = o` (insert-or-assign). -/
def setOrder : List (Nat × Order) → Nat → Order → List (Nat × Order)
  | [], i, o => [(i, o)]
  | (k, e) :: rest, i, o =>
    if k = i then (k, o) :: rest else (k, e) :: setOrder rest i o

/-- `levels[p].push_back(o)`: append to the level's FIFO, creating the level
in ascending key position if absent (the `std::map::operator[]` behaviour). -/
def insertLevel (p : Int) (o : Order) : List Level → List Level
  | [] => [(p, [o])]
  | (q, lst) :: rest =>
    if p < q then (p, [o]) :: (q, lst) :: rest
    else if p = q then (q, lst ++ [o]) :: rest
    else (q, lst) :: insertLevel p o rest

/-- The `cancelOrder` queue surgery: at the level keyed `p`, drop every queue
entry whose id is `i` (`std::remove_if`), erasing the level if it empties. -/
def removeFromLevels (p : Int) (i : Nat) : List Level → List Level
  | [] => []
  | (q, lst) :: rest =>
    if q = p then
      if lst.filter (fun o => o.id ≠ i) = [] then rest
      else (q, lst.filter (fun o => o.id ≠ i)) :: rest
    else (q, lst) :: removeFromLevels p i rest

/-- Inner queue scan of `canFullyFill`: returns `none` when the C++ loop
executed `return true`, otherwise `some` of the still-needed quantity. -/
def fillableScanQueue (o : Order) (needed : Nat) : List Order → Option Nat
  | [] => some needed
  | r :: rest =>
    if r.ownerId = o.ownerId then fillableScanQueue o needed rest
    else if needed ≤ r.quantity then none
    else
      if needed - r.quantity = 0 then none
      else fillableScanQueue o (needed - r.quantity) rest

/-- Level walk of `canFullyFill` for a buy order: ascending asks, stopping at
the first price above the order's limit. -/
def fillableScanBuy (o : Order) (needed : Nat) : List Level → Option Nat
  | [] => some needed
  | (p, q) :: rest =>
    if o.priceTick < p then some needed
    else
      match fillableScanQueue o needed q with
      | none => none
      | some n => fillableScanBuy o n rest

/-- Level walk of `canFullyFill` for a sell order: the argument is the bid
levels in descending price order (`rbegin` traversal), stopping at the first
price below the order's limit. -/
def fillableScanSell (o : Order) (needed : Nat) : List Level → Option Nat
  | [] => some needed
  | (p, q) :: rest =>
    if p < o.priceTick then some needed
    else
      match fillableScanQueue o needed q with
      | none => none
      | some n => fillableScanSell o n rest

/-- `OrderBook::canFullyFill`. -/
def canFullyFill (o : Order) (b : BookState) : Bool :=
  match
    (if o.side = Side.Buy then fillableScanBuy o o.quantity b.asks
     else fillableScanSell o o.quantity b.bids.reverse) with
  | none => true
  | some n => n = 0

/-- The mutable context of `matchLoop`: `remaining`, the registry (queue
entries alias registry records, so a fill updates both), the fills emitted so
far, the running `fillsGenerated` counter, and the clock. -/
structure MatchState where
  remaining : Nat
  orders : List (Nat × Order)
  fills : List Fill
  fillsGenerated : Nat
  clock : Nat
deriving DecidableEq, Repr

/-- The inner while loop of `matchLoop` over one level's FIFO.  A partial
fill of the head (`fillQty < restingOrder->quantity`) forces
`fillQty = remaining`, so the loop's next `remaining > 0` check fails with
the reduced head still queued; that iteration is returned directly. -/
def matchLevel (inc : Order) (price : Int) (s : MatchState) :
    List Order → MatchState × List Order
  | [] => (s, [])
  | resting :: qrest =>
    if s.remaining = 0 then (s, resting :: qrest)
    else if resting.ownerId = inc.ownerId then (s, resting :: qrest)
    else
      let fillQty := min s.remaining resting.quantity
      let f : Fill := ⟨resting.id, inc.id, fillQty, price, s.clock⟩
      if resting.quantity - fillQty = 0 then
        matchLevel inc price
          { remaining := s.remaining - fillQty,
            orders := eraseOrder s.orders resting.id,
            fills := s.fills ++ [f],
            fillsGenerated := s.fillsGenerated + 1,
            clock := s.clock + 1 } qrest
      else
        ({ remaining := s.remaining - fillQty,
           orders := setOrder s.orders resting.id
             { resting with quantity := resting.quantity - fillQty },
           fills := s.fills ++ [f],
           fillsGenerated := s.fillsGenerated + 1,
           clock := s.clock + 1 },
         { resting with quantity := resting.quantity - fillQty } :: qrest)

/-- The buy branch of `matchLoop`: forward walk of the ask levels; an emptied
level is erased (dropped), a level left non-empty (self-match break) is kept
and the walk moves on (`++it`). -/
def matchBuyLevels (inc : Order) (s : MatchState) :
    List Level → MatchState × List Level
  | [] => (s, [])
  | (p, q) :: rest =>
    if s.remaining = 0 ∨ ¬ p ≤ inc.priceTick then (s, (p, q) :: rest)
    else
      match matchLevel inc p s q with
      | (s1, q1) =>
        if q1 = [] then matchBuyLevels inc s1 rest
        else
          match matchBuyLevels inc s1 rest with
          | (s2, rest2) => (s2, (p, q1) :: rest2)

/-- One reverse pass of the sell branch of `matchLoop` over the bid levels in
descending order.  `kept` accumulates (reversed) the levels already passed
over.  Erasing an emptied level invalidates the reverse iterator, so the
source restarts from `rbegin`; that is signalled by the `true` flag together
with the level list after the erase. -/
def sellPass (inc : Order) (s : MatchState) (kept : List Level) :
    List Level → MatchState × List Level × Bool
  | [] => (s, kept.reverse, false)
  | (p, q) :: rest =>
    if s.remaining = 0 ∨ ¬ inc.priceTick ≤ p then
      (s, kept.reverse ++ (p, q) :: rest, false)
    else
      match matchLevel inc p s q with
      | (s1, q1) =>
        if q1 = [] then (s1, kept.reverse ++ rest, true)
        else sellPass inc s1 ((p, q1) :: kept) rest

/-- The sell branch of `matchLoop`: repeat `sellPass` after each restart.
Each restart follows a level erasure, so `fuel = number of levels + 1`
strictly dominates the number of passes; the fuel-exhausted branch is
unreachable from `matchLoop`. -/
def matchSellLevels (inc : Order) (fuel : Nat) (s : MatchState)
    (levels : List Level) : MatchState × List Level :=
  match fuel with
  | 0 => (s, levels)
  | f + 1 =>
    match sellPass inc s [] levels with
    | (s1, levels1, true) => matchSellLevels inc f s1 levels1
    | (s1, levels1, false) => (s1, levels1)

/-- `OrderBook::matchLoop`.  Returns the remaining quantity, the fills
emitted, the updated book and the updated clock.  `stats_.fillsGenerated`
is threaded through `MatchState` (one increment per emitted fill). -/
def matchLoop (inc : Order) (remaining : Nat) (b : BookState) (clock : Nat) :
    Nat × List Fill × BookState × Nat :=
  let s0 : MatchState := ⟨remaining, b.orders, [], b.stats.fillsGenerated, clock⟩
  if inc.side = Side.Buy then
    match matchBuyLevels inc s0 b.asks with
    | (s, asks1) =>
      (s.remaining, s.fills,
       { b with asks := asks1, orders := s.orders,
                stats := { b.stats with fillsGenerated := s.fillsGenerated } },
       s.clock)
  else
    match matchSellLevels inc (b.bids.length + 1) s0 b.bids.reverse with
    | (s, bidsDesc) =>
      (s.remaining, s.fills,
       { b with bids := bidsDesc.reverse, orders := s.orders,
                stats := { b.stats with fillsGenerated := s.fillsGenerated } },
       s.clock)

/-- `OrderBook::restOrder`: place the residual at the tail of its level,
register it, bump `orderCount_`, and monotonically tighten the best-price
hint (the CAS loop collapses to a comparison under the book's lock). -/
def restOrder (o : Order) (remaining : Nat) (b : BookState) (clock : Nat) :
    BookState × Nat :=
  let newOrder : Order := { o with quantity := remaining, timestamp := clock }
  let orders1 := setOrder b.orders o.id newOrder
  if o.side = Side.Buy then
    ({ b with bids := insertLevel o.priceTick newOrder b.bids,
              orders := orders1,
              orderCount := b.orderCount + 1,
              bestBidTick :=
                if b.bestBidTick < o.priceTick then o.priceTick
                else b.bestBidTick },
     clock + 1)
  else
    ({ b with asks := insertLevel o.priceTick newOrder b.asks,
              orders := orders1,
              orderCount := b.orderCount + 1,
              bestAskTick :=
                if o.priceTick < b.bestAskTick then o.priceTick
                else b.bestAskTick },
     clock + 1)

/-- `OrderBook::submitOrder`.  Returns `(accepted, fills, book, clock)`.
The first clock read is `startTime`; on the non-early-return path the final
read computes `processingTime`, `ordersProcessed` is bumped and the
`avgProcessingTimeNs` gauge stores that last processing time. -/
def submitOrder (o : Order) (b : BookState) (clock : Nat) :
    Bool × List Fill × BookState × Nat :=
  let startTime := clock
  let c1 := clock + 1
  if o.tif = TimeInForce.FOK ∧ canFullyFill o b = false then (false, [], b, c1)
  else
    match matchLoop o o.quantity b c1 with
    | (remaining, fills, b1, c2) =>
      if 0 < remaining ∧ (o.tif = TimeInForce.IOC ∨ o.tif = TimeInForce.FOK) then
        (true, fills, b1, c2)
      else
        match (if 0 < remaining then restOrder o remaining b1 c2 else (b1, c2)) with
        | (b2, c3) =>
          (true, fills,
           { b2 with stats :=
               { b2.stats with
                   ordersProcessed := b2.stats.ordersProcessed + 1,
                   avgProcessingTimeNs := c3 - startTime } },
           c3 + 1)

/-- `OrderBook::cancelOrder`. -/
def cancelOrder (orderId : Nat) (b : BookState) : Bool × BookState :=
  match lookupOrder b.orders orderId with
  | none => (false, b)
  | some o =>
    if o.side = Side.Buy then
      (true,
       { b with bids := removeFromLevels o.priceTick orderId b.bids,
                orders := eraseOrder b.orders orderId,
                orderCount := b.orderCount - 1 })
    else
      (true,
       { b with asks := removeFromLevels o.priceTick orderId b.asks,
                orders := eraseOrder b.orders orderId,
                orderCount := b.orderCount - 1 })

/-- `OrderBook::modifyOrder`: look up the original, then cancel and resubmit
it with the new price and quantity (`{originalOrder with priceTick := p,
quantity := q}`); empty fill list when the id is unknown. -/
def modifyOrder (orderId : Nat) (newPrice : Int) (newQty : Nat)
    (b : BookState) (clock : Nat) : List Fill × BookState × Nat :=
  match lookupOrder b.orders orderId with
  | none => ([], b, clock)
  | some originalOrder =>
    match cancelOrder orderId b with
    | (_, b1) =>
      match submitOrder
          { originalOrder with priceTick := newPrice, quantity := newQty }
          b1 clock with
      | (_, fills, b2, c2) => (fills, b2, c2)

/-- `OrderBook::cancelAll`: snapshot the ids on `side`, then cancel each. -/
def cancelAll (side : Side) (b : BookState) : BookState :=
  ((b.orders.filter (fun e => e.2.side = side)).map (fun e => e.1)).foldl
    (fun bk i => (cancelOrder i bk).2) b

/-- Modelled from the spec: the freshly constructed book.  The constructor in
the missing declaration header (`order_book.hpp`) only reserves registry
capacity; both sides, the registry and the counters start empty/zero, and
the best-price hints start at the extreme sentinels so the monotonic
tightening of §4.2 is meaningful.  No claim observes the hint initials. -/
def initialBook : BookState :=
  { bids := [], asks := [], orders := [], orderCount := 0,
    bestBidTick := -(2 ^ 63), bestAskTick := 2 ^ 63 - 1,
    stats := ⟨0, 0, 0⟩ }

/-- Decidable form of spec invariant I1: every resting bid price is strictly
below every resting ask price. -/
def nonCrossed (b : BookState) : Bool :=
  b.bids.all (fun lb => b.asks.all (fun la => lb.1 < la.1))

/-- Spec-side composition for the modify refinement claim, following the
spec's words: "cancel-then-submit with the new parameters, preserving
`side`, `ownerId`, `type`, `tif` from the original" (the order's identity —
its id — and its timestamp field necessarily carry over as well; the
timestamp is reassigned on resting). -/
def cancelThenSubmitSpec (orderId : Nat) (newPrice : Int) (newQty : Nat)
    (b : BookState) (clock : Nat) : List Fill × BookState × Nat :=
  match lookupOrder b.orders orderId with
  | none => ([], b, clock)
  | some original =>
    match cancelOrder orderId b with
    | (_, b1) =>
      match submitOrder
          { id := original.id, side := original.side, priceTick := newPrice,
            quantity := newQty, type := original.type, tif := original.tif,
            ownerId := original.ownerId, timestamp := original.timestamp }
          b1 clock with
      | (_, fills, b2, c2) => (fills, b2, c2)

/-- Test-input constructor: a limit order with the given id, side, price
tick, quantity, time-in-force and owner (timestamp field initially 0; the
book assigns resting timestamps itself). -/
def mkOrder (i : Nat) (sd : Side) (px : Int) (q : Nat) (t : TimeInForce)
    (ow : Nat) : Order :=
  ⟨i, sd, px, q, OrderType.Limit, t, ow, 0⟩

/-- Submit a list of orders in sequence, threading book and clock. -/
def submitAll (os : List Order) (b : BookState) (c : Nat) : BookState × Nat :=
  os.foldl (fun p o => ((submitOrder o p.1 p.2).2.2.1, (submitOrder o p.1 p.2).2.2.2))
    (b, c)

/-- C1 input: one ask level at 100 whose FIFO is (owner 1, qty 2), then
(owner 7, qty 5), then (owner 2, qty 3). -/
def c1Setup : BookState × Nat :=
  submitAll
    [mkOrder 1 Side.Sell 100 2 TimeInForce.GTC 1,
     mkOrder 2 Side.Sell 100 5 TimeInForce.GTC 7,
     mkOrder 3 Side.Sell 100 3 TimeInForce.GTC 2] initialBook 0

/-- C1 aggressor: owner 7 submits a marketable FOK buy for 4. -/
def c1Aggressor : Order := mkOrder 4 Side.Buy 100 4 TimeInForce.FOK 7

/-- C2 input: ask levels 100 (owner 7, qty 5) and 101 (owner 1, qty 3). -/
def c2Setup : BookState × Nat :=
  submitAll
    [mkOrder 1 Side.Sell 100 5 TimeInForce.GTC 7,
     mkOrder 2 Side.Sell 101 3 TimeInForce.GTC 1] initialBook 0

/-- C2 aggressor: owner 7 buys 3 at limit 101, IOC. -/
def c2Aggressor : Order := mkOrder 3 Side.Buy 101 3 TimeInForce.IOC 7

/-- C3 input: one resting ask (owner 7, price 100, qty 5). -/
def c3Setup : BookState × Nat :=
  submitAll [mkOrder 1 Side.Sell 100 5 TimeInForce.GTC 7] initialBook 0

/-- C3: owner 7 then submits a GTC buy at the same price; the self-match
block leaves `remaining = 5`, which rests as a bid at 100. -/
def c3Final : BookState :=
  (submitOrder (mkOrder 2 Side.Buy 100 5 TimeInForce.GTC 7) c3Setup.1 c3Setup.2).2.2.1

/-- C4 input: one resting ask of quantity 2. -/
def c4Setup : BookState × Nat :=
  submitAll [mkOrder 30 Side.Sell 100 2 TimeInForce.GTC 1] initialBook 0

/-- C4 aggressor: FOK buy for 5 against crossable quantity 2. -/
def c4Aggressor : Order := mkOrder 31 Side.Buy 100 5 TimeInForce.FOK 2

/-- C5 input: one resting ask (owner 1, qty 3). -/
def c5Setup : BookState × Nat :=
  submitAll [mkOrder 1 Side.Sell 100 3 TimeInForce.GTC 1] initialBook 0

/-- C5: a buy from owner 2 fully fills the resting ask; the matcher erases
it from the registry. -/
def c5Final : BookState :=
  (submitOrder (mkOrder 2 Side.Buy 100 3 TimeInForce.GTC 2) c5Setup.1 c5Setup.2).2.2.1

/-- C6 witness input: one resting ask (owner 1, qty 4); clock afterwards 2. -/
def c6Book : BookState :=
  (submitOrder (mkOrder 10 Side.Sell 100 4 TimeInForce.GTC 1) initialBook 0).2.2.1

/-- C6 witness aggressor. -/
def c6Aggressor : Order := mkOrder 11 Side.Buy 100 4 TimeInForce.GTC 2

/-- The fill the C6 witness submission produces. -/
def c6TheFill : Fill := ⟨10, 11, 4, 100, 3⟩

/-- C7: an order violating the `quantity > 0` precondition. -/
def c7Order : Order := mkOrder 5 Side.Buy 100 0 TimeInForce.GTC 1

/-- C8 counterexample: an IOC buy on an empty book (residual discarded). -/
def c8Order : Order := mkOrder 1 Side.Buy 100 1 TimeInForce.IOC 1

/-- C8 witness input: a GTC buy on an empty book (rests; stats path taken). -/
def c8WitOrder : Order := mkOrder 2 Side.Buy 100 2 TimeInForce.GTC 3

/-- C10 witness input: one resting ask (owner 1, qty 4). -/
def c10Book : BookState :=
  (submitOrder (mkOrder 20 Side.Sell 100 4 TimeInForce.GTC 1) initialBook 0).2.2.1

/-- C10 witness aggressor: zero-quantity FOK buy. -/
def c10Order : Order := mkOrder 21 Side.Buy 100 0 TimeInForce.FOK 2

/-- C2 witness match context: remaining 3, empty registry, clock 0. -/
def c2WitState : MatchState := ⟨3, [], [], 0, 0⟩

/-- C2 witness blocked head: resting sell owned by the aggressor's owner. -/
def c2WitResting : Order := mkOrder 1 Side.Sell 100 5 TimeInForce.GTC 7

/-- C2 witness subsequent level: a worse-priced ask of another owner. -/
def c2WitOther : Level := (101, [mkOrder 2 Side.Sell 101 3 TimeInForce.GTC 1])

/-! ### Behaviour on zero remaining quantity -/

theorem fillableScanQueue_zero (o : Order) :
    ∀ q : List Order,
      fillableScanQueue o 0 q = none ∨ fillableScanQueue o 0 q = some 0 := by
  intro q
  induction q with
  | nil => right; rfl
  | cons r rest ih =>
    by_cases h : r.ownerId = o.ownerId
    · simpa [fillableScanQueue, h] using ih
    · left; simp [fillableScanQueue, h]

theorem fillableScanBuy_zero (o : Order) :
    ∀ ls : List Level,
      fillableScanBuy o 0 ls = none ∨ fillableScanBuy o 0 ls = some 0 := by
  intro ls
  induction ls with
  | nil => right; rfl
  | cons l rest ih =>
    rcases l with ⟨p, q⟩
    by_cases hp : o.priceTick < p
    · right; simp [fillableScanBuy, hp]
    · rcases fillableScanQueue_zero o q with h | h
      · left; simp [fillableScanBuy, hp, h]
      · simpa [fillableScanBuy, hp, h] using ih

theorem fillableScanSell_zero (o : Order) :
    ∀ ls : List Level,
      fillableScanSell o 0 ls = none ∨ fillableScanSell o 0 ls = some 0 := by
  intro ls
  induction ls with
  | nil => right; rfl
  | cons l rest ih =>
    rcases l with ⟨p, q⟩
    by_cases hp : p < o.priceTick
    · right; simp [fillableScanSell, hp]
    · rcases fillableScanQueue_zero o q with h | h
      · left; simp [fillableScanSell, hp, h]
      · simpa [fillableScanSell, hp, h] using ih

/-- A zero-quantity order always passes the FOK pre-check. -/
theorem canFullyFill_zero (o : Order) (b : BookState) (h : o.quantity = 0) :
    canFullyFill o b = true := by
  unfold canFullyFill
  rw [h]
  by_cases hs : o.side = Side.Buy
  · rcases fillableScanBuy_zero o b.asks with h1 | h1 <;> simp [hs, h1]
  · rcases fillableScanSell_zero o b.bids.reverse with h1 | h1 <;> simp [hs, h1]

theorem matchBuyLevels_zero (inc : Order) (s : MatchState) (ls : List Level)
    (h : s.remaining = 0) : matchBuyLevels inc s ls = (s, ls) := by
  cases ls with
  | nil => rfl
  | cons l rest => rcases l with ⟨p, q⟩; simp [matchBuyLevels, h]

theorem sellPass_zero (inc : Order) (s : MatchState) (kept : List Level)
    (todo : List Level) (h : s.remaining = 0) :
    sellPass inc s kept todo = (s, kept.reverse ++ todo, false) := by
  cases todo with
  | nil => simp [sellPass]
  | cons l rest => rcases l with ⟨p, q⟩; simp [sellPass, h]

theorem matchSellLevels_zero (inc : Order) (fuel : Nat) (s : MatchState)
    (ls : List Level) (h : s.remaining = 0) :
    matchSellLevels inc fuel s ls = (s, ls) := by
  cases fuel with
  | zero => rfl
  | succ f => simp [matchSellLevels, sellPass_zero inc s [] ls h]

/-- `matchLoop` with zero remaining quantity is the identity: no fills, no
book change, no clock advance. -/
theorem matchLoop_zero (o : Order) (b : BookState) (c : Nat) :
    matchLoop o 0 b c = (0, [], b, c) := by
  unfold matchLoop
  by_cases hs : o.side = Side.Buy
  · rw [if_pos hs, matchBuyLevels_zero o _ b.asks rfl]
  · rw [if_neg hs, matchSellLevels_zero o _ _ b.bids.reverse rfl]
    simp

/-! ### Structure of the inner level loop -/

/-- A self-owned order at the head of the FIFO stops the level loop at once:
no fills, the queue and the whole match context unchanged. -/
theorem matchLevel_blocked (inc : Order) (p : Int) (s : MatchState)
    (r : Order) (q : List Order) (hown : r.ownerId = inc.ownerId) :
    matchLevel inc p s (r :: q) = (s, r :: q) := by
  by_cases h0 : s.remaining = 0
  · simp [matchLevel, h0]
  · simp [matchLevel, h0, hown]

/-- Orders still queued after the level loop keep the id and owner of an
order of the input queue (the head may have its quantity reduced). -/
theorem matchLevel_mem (inc : Order) (p : Int) :
    ∀ (q : List Order) (s : MatchState) (r' : Order),
      r' ∈ (matchLevel inc p s q).2 →
      ∃ r ∈ q, r.id = r'.id ∧ r.ownerId = r'.ownerId := by
  intro q
  induction q with
  | nil => intro s r' h; simp [matchLevel] at h
  | cons resting qrest ih =>
    intro s r' h
    by_cases h0 : s.remaining = 0
    · rw [matchLevel, if_pos h0] at h
      exact ⟨r', h, rfl, rfl⟩
    · by_cases hown : resting.ownerId = inc.ownerId
      · rw [matchLevel, if_neg h0, if_pos hown] at h
        exact ⟨r', h, rfl, rfl⟩
      · by_cases hq : resting.quantity - min s.remaining resting.quantity = 0
        · rw [matchLevel, if_neg h0, if_neg hown] at h
          simp only [hq, if_pos rfl] at h
          obtain ⟨r, hr, hid, how⟩ := ih _ r' h
          exact ⟨r, List.mem_cons_of_mem _ hr, hid, how⟩
        · rw [matchLevel, if_neg h0, if_neg hown] at h
          simp only [if_neg hq] at h
          rcases List.mem_cons.mp h with h1 | h1
          · exact ⟨resting, List.mem_cons_self _ _, by rw [h1], by rw [h1]⟩
          · exact ⟨r', List.mem_cons_of_mem _ h1, rfl, rfl⟩

/-- Every fill the level loop adds pairs the incoming taker with a resting
maker from the input queue of a different owner. -/
theorem matchLevel_fills (inc : Order) (p : Int) :
    ∀ (q : List Order) (s : MatchState) (f : Fill),
      f ∈ (matchLevel inc p s q).1.fills →
      f ∈ s.fills ∨
        ∃ r ∈ q, r.id = f.makerOrderId ∧ r.ownerId ≠ inc.ownerId ∧
          f.takerOrderId = inc.id := by
  intro q
  induction q with
  | nil => intro s f h; simp only [matchLevel] at h; exact Or.inl h
  | cons resting qrest ih =>
    intro s f h
    by_cases h0 : s.remaining = 0
    · rw [matchLevel, if_pos h0] at h
      exact Or.inl h
    · by_cases hown : resting.ownerId = inc.ownerId
      · rw [matchLevel, if_neg h0, if_pos hown] at h
        exact Or.inl h
      · by_cases hq : resting.quantity - min s.remaining resting.quantity = 0
        · rw [matchLevel, if_neg h0, if_neg hown] at h
          simp only [hq, if_pos rfl] at h
          rcases ih _ f h with h1 | ⟨r, hr, hprops⟩
          · rcases List.mem_append.mp h1 with h2 | h2
            · exact Or.inl h2
            · right
              refine ⟨resting, List.mem_cons_self _ _, ?_, hown, ?_⟩
              · rcases List.mem_singleton.mp h2 with rfl; rfl
              · rcases List.mem_singleton.mp h2 with rfl; rfl
          · exact Or.inr ⟨r, List.mem_cons_of_mem _ hr, hprops⟩
        · rw [matchLevel, if_neg h0, if_neg hown] at h
          simp only [if_neg hq] at h
          rcases List.mem_append.mp h with h2 | h2
          · exact Or.inl h2
          · right
            refine ⟨resting, List.mem_cons_self _ _, ?_, hown, ?_⟩
            · rcases List.mem_singleton.mp h2 with rfl; rfl
            · rcases List.mem_singleton.mp h2 with rfl; rfl

/-- The level loop bumps `fillsGenerated` exactly once per fill it appends. -/
theorem matchLevel_fillsGen (inc : Order) (p : Int) :
    ∀ (q : List Order) (s : MatchState),
      (matchLevel inc p s q).1.fillsGenerated + s.fills.length
        = s.fillsGenerated + (matchLevel inc p s q).1.fills.length := by
  intro q
  induction q with
  | nil => intro s; simp [matchLevel]
  | cons resting qrest ih =>
    intro s
    by_cases h0 : s.remaining = 0
    · simp [matchLevel, h0]
    · by_cases hown : resting.ownerId = inc.ownerId
      · simp [matchLevel, h0, hown]
      · by_cases hq : resting.quantity - min s.remaining resting.quantity = 0
        · simp only [matchLevel, if_neg h0, if_neg hown]
          rw [if_pos hq]
          have h1 := ih (MatchState.mk (s.remaining - min s.remaining resting.quantity)
            (eraseOrder s.orders resting.id)
            (s.fills ++ [Fill.mk resting.id inc.id (min s.remaining resting.quantity) p s.clock])
            (s.fillsGenerated + 1) (s.clock + 1))
          simp only [List.length_append, List.length_singleton] at h1
          omega
        · simp only [matchLevel, if_neg h0, if_neg hown]
          rw [if_neg hq]
          simp only [List.length_append, List.length_singleton]
          omega

/-! ### Structure of the level walks -/

/-- Fills produced by the buy-side walk come from the input levels, always
pairing the incoming taker with a maker of a different owner. -/
theorem matchBuyLevels_fills (inc : Order) :
    ∀ (ls : List Level) (s : MatchState) (f : Fill),
      f ∈ (matchBuyLevels inc s ls).1.fills →
      f ∈ s.fills ∨
        ∃ l ∈ ls, ∃ r ∈ l.2, r.id = f.makerOrderId ∧ r.ownerId ≠ inc.ownerId ∧
          f.takerOrderId = inc.id := by
  intro ls
  induction ls with
  | nil => intro s f h; simp only [matchBuyLevels] at h; exact Or.inl h
  | cons l rest ih =>
    rcases l with ⟨p, q⟩
    intro s f h
    by_cases hc : s.remaining = 0 ∨ ¬ p ≤ inc.priceTick
    · rw [matchBuyLevels, if_pos hc] at h
      exact Or.inl h
    · rw [matchBuyLevels, if_neg hc] at h
      rcases hml : matchLevel inc p s q with ⟨s1, q1⟩
      simp only [hml] at h
      have hf1 : f ∈ (matchBuyLevels inc s1 rest).1.fills := by
        by_cases hq1 : q1 = []
        · rw [if_pos hq1] at h; exact h
        · rw [if_neg hq1] at h
          rcases hmb : matchBuyLevels inc s1 rest with ⟨s2, rest2⟩
          simp only [hmb] at h
          exact h
      rcases ih s1 f hf1 with h2 | ⟨l, hl, hrest⟩
      · have h3 : f ∈ (matchLevel inc p s q).1.fills := by rw [hml]; exact h2
        rcases matchLevel_fills inc p q s f h3 with h4 | ⟨r, hr, hprops⟩
        · exact Or.inl h4
        · exact Or.inr ⟨(p, q), List.mem_cons_self _ _, r, hr, hprops⟩
      · exact Or.inr ⟨l, List.mem_cons_of_mem _ hl, hrest⟩

/-- The buy-side walk keeps `fillsGenerated` in lockstep with the fills. -/
theorem matchBuyLevels_fillsGen (inc : Order) :
    ∀ (ls : List Level) (s : MatchState),
      (matchBuyLevels inc s ls).1.fillsGenerated + s.fills.length
        = s.fillsGenerated + (matchBuyLevels inc s ls).1.fills.length := by
  intro ls
  induction ls with
  | nil => intro s; simp [matchBuyLevels]
  | cons l rest ih =>
    rcases l with ⟨p, q⟩
    intro s
    by_cases hc : s.remaining = 0 ∨ ¬ p ≤ inc.priceTick
    · rw [matchBuyLevels, if_pos hc]
    · rw [matchBuyLevels, if_neg hc]
      rcases hml : matchLevel inc p s q with ⟨s1, q1⟩
      dsimp only
      have hLevel : s1.fillsGenerated + s.fills.length
          = s.fillsGenerated + s1.fills.length := by
        have h0 := matchLevel_fillsGen inc p q s
        rw [hml] at h0
        exact h0
      by_cases hq1 : q1 = []
      · rw [if_pos hq1]
        have h2 := ih s1
        omega
      · rw [if_neg hq1]
        rcases hmb : matchBuyLevels inc s1 rest with ⟨s2, rest2⟩
        dsimp only
        have h2 : s2.fillsGenerated + s1.fills.length
            = s1.fillsGenerated + s2.fills.length := by
          have h0 := ih s1
          rw [hmb] at h0
          exact h0
        omega

/-- Fills produced by one sell-side pass come from its `todo` levels, always
pairing the incoming taker with a maker of a different owner. -/
theorem sellPass_fills (inc : Order) :
    ∀ (todo : List Level) (s : MatchState) (kept : List Level) (f : Fill),
      f ∈ (sellPass inc s kept todo).1.fills →
      f ∈ s.fills ∨
        ∃ l ∈ todo, ∃ r ∈ l.2, r.id = f.makerOrderId ∧ r.ownerId ≠ inc.ownerId ∧
          f.takerOrderId = inc.id := by
  intro todo
  induction todo with
  | nil => intro s kept f h; simp only [sellPass] at h; exact Or.inl h
  | cons l rest ih =>
    rcases l with ⟨p, q⟩
    intro s kept f h
    by_cases hc : s.remaining = 0 ∨ ¬ inc.priceTick ≤ p
    · rw [sellPass, if_pos hc] at h
      exact Or.inl h
    · rw [sellPass, if_neg hc] at h
      rcases hml : matchLevel inc p s q with ⟨s1, q1⟩
      simp only [hml] at h
      by_cases hq1 : q1 = []
      · rw [if_pos hq1] at h
        have h3 : f ∈ (matchLevel inc p s q).1.fills := by rw [hml]; exact h
        rcases matchLevel_fills inc p q s f h3 with h4 | ⟨r, hr, hprops⟩
        · exact Or.inl h4
        · exact Or.inr ⟨(p, q), List.mem_cons_self _ _, r, hr, hprops⟩
      · rw [if_neg hq1] at h
        rcases ih s1 ((p, q1) :: kept) f h with h2 | ⟨l, hl, hrest⟩
        · have h3 : f ∈ (matchLevel inc p s q).1.fills := by rw [hml]; exact h2
          rcases matchLevel_fills inc p q s f h3 with h4 | ⟨r, hr, hprops⟩
          · exact Or.inl h4
          · exact Or.inr ⟨(p, q), List.mem_cons_self _ _, r, hr, hprops⟩
        · exact Or.inr ⟨l, List.mem_cons_of_mem _ hl, hrest⟩

/-- Every order queued in the levels a sell-side pass returns keeps the id
and owner of an order queued in the pass's input (`kept` or `todo`). -/
theorem sellPass_levels (inc : Order) :
    ∀ (todo : List Level) (s : MatchState) (kept : List Level) (l' : Level)
      (r' : Order),
      l' ∈ (sellPass inc s kept todo).2.1 → r' ∈ l'.2 →
      ∃ l, (l ∈ kept ∨ l ∈ todo) ∧
        ∃ r ∈ l.2, r.id = r'.id ∧ r.ownerId = r'.ownerId := by
  intro todo
  induction todo with
  | nil =>
    intro s kept l' r' h hr
    simp only [sellPass] at h
    exact ⟨l', Or.inl (List.mem_reverse.mp h), r', hr, rfl, rfl⟩
  | cons l rest ih =>
    rcases l with ⟨p, q⟩
    intro s kept l' r' h hr
    by_cases hc : s.remaining = 0 ∨ ¬ inc.priceTick ≤ p
    · rw [sellPass, if_pos hc] at h
      rcases List.mem_append.mp h with h1 | h1
      · exact ⟨l', Or.inl (List.mem_reverse.mp h1), r', hr, rfl, rfl⟩
      · exact ⟨l', Or.inr h1, r', hr, rfl, rfl⟩
    · rw [sellPass, if_neg hc] at h
      rcases hml : matchLevel inc p s q with ⟨s1, q1⟩
      simp only [hml] at h
      by_cases hq1 : q1 = []
      · rw [if_pos hq1] at h
        rcases List.mem_append.mp h with h1 | h1
        · exact ⟨l', Or.inl (List.mem_reverse.mp h1), r', hr, rfl, rfl⟩
        · exact ⟨l', Or.inr (List.mem_cons_of_mem _ h1), r', hr, rfl, rfl⟩
      · rw [if_neg hq1] at h
        rcases ih s1 ((p, q1) :: kept) l' r' h hr with ⟨l, hl, r, hrl, hid, how⟩
        rcases hl with hl | hl
        · rcases List.mem_cons.mp hl with rfl | hl
          · have h3 : r ∈ (matchLevel inc p s q).2 := by rw [hml]; exact hrl
            obtain ⟨r0, hr0, hid0, how0⟩ := matchLevel_mem inc p q s r h3
            exact ⟨(p, q), Or.inr (List.mem_cons_self _ _), r0, hr0,
              hid0.trans hid, how0.trans how⟩
          · exact ⟨l, Or.inl hl, r, hrl, hid, how⟩
        · exact ⟨l, Or.inr (List.mem_cons_of_mem _ hl), r, hrl, hid, how⟩

/-- One sell-side pass keeps `fillsGenerated` in lockstep with the fills. -/
theorem sellPass_fillsGen (inc : Order) :
    ∀ (todo : List Level) (s : MatchState) (kept : List Level),
      (sellPass inc s kept todo).1.fillsGenerated + s.fills.length
        = s.fillsGenerated + (sellPass inc s kept todo).1.fills.length := by
  intro todo
  induction todo with
  | nil => intro s kept; simp [sellPass]
  | cons l rest ih =>
    rcases l with ⟨p, q⟩
    intro s kept
    by_cases hc : s.remaining = 0 ∨ ¬ inc.priceTick ≤ p
    · rw [sellPass, if_pos hc]
    · rw [sellPass, if_neg hc]
      rcases hml : matchLevel inc p s q with ⟨s1, q1⟩
      dsimp only
      have hLevel : s1.fillsGenerated + s.fills.length
          = s.fillsGenerated + s1.fills.length := by
        have h0 := matchLevel_fillsGen inc p q s
        rw [hml] at h0
        exact h0
      by_cases hq1 : q1 = []
      · rw [if_pos hq1]
        exact hLevel
      · rw [if_neg hq1]
        have h2 := ih s1 ((p, q1) :: kept)
        omega

/-- Fills produced by the sell-side walk come from the input levels, always
pairing the incoming taker with a maker of a different owner. -/
theorem matchSellLevels_fills (inc : Order) :
    ∀ (fuel : Nat) (s : MatchState) (ls : List Level) (f : Fill),
      f ∈ (matchSellLevels inc fuel s ls).1.fills →
      f ∈ s.fills ∨
        ∃ l ∈ ls, ∃ r ∈ l.2, r.id = f.makerOrderId ∧ r.ownerId ≠ inc.ownerId ∧
          f.takerOrderId = inc.id := by
  intro fuel
  induction fuel with
  | zero => intro s ls f h; simp only [matchSellLevels] at h; exact Or.inl h
  | succ fu ih =>
    intro s ls f h
    rcases hsp : sellPass inc s [] ls with ⟨s1, ls1, flag⟩
    rw [matchSellLevels] at h
    simp only [hsp] at h
    have fromPass : f ∈ s1.fills →
        f ∈ s.fills ∨ ∃ l ∈ ls, ∃ r ∈ l.2, r.id = f.makerOrderId ∧
          r.ownerId ≠ inc.ownerId ∧ f.takerOrderId = inc.id := by
      intro h1
      have h3 : f ∈ (sellPass inc s [] ls).1.fills := by rw [hsp]; exact h1
      exact sellPass_fills inc ls s [] f h3
    cases flag with
    | false => exact fromPass h
    | true =>
      rcases ih s1 ls1 f h with h1 | ⟨l, hl, r', hr', hid, how, htk⟩
      · exact fromPass h1
      · have h3 : l ∈ (sellPass inc s [] ls).2.1 := by rw [hsp]; exact hl
        obtain ⟨l0, hl0, r0, hr0, hid0, how0⟩ :=
          sellPass_levels inc ls s [] l r' h3 hr'
        rcases hl0 with hl0 | hl0
        · simp at hl0
        · exact Or.inr ⟨l0, hl0, r0, hr0, hid0.trans hid,
            by rw [how0]; exact how, htk⟩

/-- The sell-side walk keeps `fillsGenerated` in lockstep with the fills. -/
theorem matchSellLevels_fillsGen (inc : Order) :
    ∀ (fuel : Nat) (s : MatchState) (ls : List Level),
      (matchSellLevels inc fuel s ls).1.fillsGenerated + s.fills.length
        = s.fillsGenerated + (matchSellLevels inc fuel s ls).1.fills.length := by
  intro fuel
  induction fuel with
  | zero => intro s ls; simp [matchSellLevels]
  | succ fu ih =>
    intro s ls
    rcases hsp : sellPass inc s [] ls with ⟨s1, ls1, flag⟩
    have hPass : s1.fillsGenerated + s.fills.length
        = s.fillsGenerated + s1.fills.length := by
      have h0 := sellPass_fillsGen inc ls s []
      rw [hsp] at h0
      exact h0
    cases flag with
    | false =>
      have heq : matchSellLevels inc (fu + 1) s ls = (s1, ls1) := by
        rw [matchSellLevels, hsp]
      rw [heq]
      exact hPass
    | true =>
      have heq : matchSellLevels inc (fu + 1) s ls
          = matchSellLevels inc fu s1 ls1 := by
        rw [matchSellLevels, hsp]
      rw [heq]
      have h2 := ih s1 ls1
      omega

/-! ### Characterisation of `matchLoop` -/

/-- `matchLoop` for a buy order, written out via the buy-side walk. -/
theorem matchLoop_buy (o : Order) (rem : Nat) (b : BookState) (c : Nat)
    (hs : o.side = Side.Buy) :
    matchLoop o rem b c
      = ((matchBuyLevels o ⟨rem, b.orders, [], b.stats.fillsGenerated, c⟩ b.asks).1.remaining,
         (matchBuyLevels o ⟨rem, b.orders, [], b.stats.fillsGenerated, c⟩ b.asks).1.fills,
         { b with
             asks := (matchBuyLevels o ⟨rem, b.orders, [], b.stats.fillsGenerated, c⟩ b.asks).2,
             orders := (matchBuyLevels o ⟨rem, b.orders, [], b.stats.fillsGenerated, c⟩ b.asks).1.orders,
             stats := { b.stats with fillsGenerated :=
               (matchBuyLevels o ⟨rem, b.orders, [], b.stats.fillsGenerated, c⟩ b.asks).1.fillsGenerated } },
         (matchBuyLevels o ⟨rem, b.orders, [], b.stats.fillsGenerated, c⟩ b.asks).1.clock) := by
  rcases hmb : matchBuyLevels o ⟨rem, b.orders, [], b.stats.fillsGenerated, c⟩ b.asks
    with ⟨s, asks1⟩
  simp [matchLoop, hs, hmb]

/-- `matchLoop` for a sell order, written out via the sell-side walk. -/
theorem matchLoop_sell (o : Order) (rem : Nat) (b : BookState) (c : Nat)
    (hs : ¬ o.side = Side.Buy) :
    matchLoop o rem b c
      = ((matchSellLevels o (b.bids.length + 1)
            ⟨rem, b.orders, [], b.stats.fillsGenerated, c⟩ b.bids.reverse).1.remaining,
         (matchSellLevels o (b.bids.length + 1)
            ⟨rem, b.orders, [], b.stats.fillsGenerated, c⟩ b.bids.reverse).1.fills,
         { b with
             bids := (matchSellLevels o (b.bids.length + 1)
               ⟨rem, b.orders, [], b.stats.fillsGenerated, c⟩ b.bids.reverse).2.reverse,
             orders := (matchSellLevels o (b.bids.length + 1)
               ⟨rem, b.orders, [], b.stats.fillsGenerated, c⟩ b.bids.reverse).1.orders,
             stats := { b.stats with fillsGenerated :=
               (matchSellLevels o (b.bids.length + 1)
                 ⟨rem, b.orders, [], b.stats.fillsGenerated, c⟩ b.bids.reverse).1.fillsGenerated } },
         (matchSellLevels o (b.bids.length + 1)
            ⟨rem, b.orders, [], b.stats.fillsGenerated, c⟩ b.bids.reverse).1.clock) := by
  rcases hms : matchSellLevels o (b.bids.length + 1)
      ⟨rem, b.orders, [], b.stats.fillsGenerated, c⟩ b.bids.reverse
    with ⟨s, bidsDesc⟩
  simp [matchLoop, hs, hms]

/-- Every fill `matchLoop` emits pairs the incoming taker with a resting
maker of a different owner drawn from the contra side of the input book. -/
theorem matchLoop_fills (o : Order) (rem : Nat) (b : BookState) (c : Nat)
    (f : Fill) (h : f ∈ (matchLoop o rem b c).2.1) :
    ∃ l ∈ (if o.side = Side.Buy then b.asks else b.bids), ∃ r ∈ l.2,
      r.id = f.makerOrderId ∧ r.ownerId ≠ o.ownerId ∧ f.takerOrderId = o.id := by
  by_cases hs : o.side = Side.Buy
  · rw [matchLoop_buy o rem b c hs] at h
    rw [if_pos hs]
    have h1 : f ∈ (matchBuyLevels o ⟨rem, b.orders, [], b.stats.fillsGenerated, c⟩
        b.asks).1.fills := h
    rcases matchBuyLevels_fills o b.asks _ f h1 with h2 | h2
    · simp at h2
    · exact h2
  · rw [matchLoop_sell o rem b c hs] at h
    rw [if_neg hs]
    have h1 : f ∈ (matchSellLevels o (b.bids.length + 1)
        ⟨rem, b.orders, [], b.stats.fillsGenerated, c⟩ b.bids.reverse).1.fills := h
    rcases matchSellLevels_fills o (b.bids.length + 1) _ b.bids.reverse f h1 with h2 | h2
    · simp at h2
    · obtain ⟨l, hl, rest⟩ := h2
      exact ⟨l, List.mem_reverse.mp hl, rest⟩

/-- `matchLoop` adds exactly the number of emitted fills to
`stats.fillsGenerated`. -/
theorem matchLoop_fillsGen (o : Order) (rem : Nat) (b : BookState) (c : Nat) :
    (matchLoop o rem b c).2.2.1.stats.fillsGenerated
      = b.stats.fillsGenerated + (matchLoop o rem b c).2.1.length := by
  by_cases hs : o.side = Side.Buy
  · rw [matchLoop_buy o rem b c hs]
    have h0 := matchBuyLevels_fillsGen o b.asks
      ⟨rem, b.orders, [], b.stats.fillsGenerated, c⟩
    simp only [List.length_nil, Nat.add_zero] at h0
    exact h0
  · rw [matchLoop_sell o rem b c hs]
    have h0 := matchSellLevels_fillsGen o (b.bids.length + 1)
      ⟨rem, b.orders, [], b.stats.fillsGenerated, c⟩ b.bids.reverse
    simp only [List.length_nil, Nat.add_zero] at h0
    exact h0

/-- `matchLoop` leaves `ordersProcessed` and the processing-time gauge
untouched. -/
theorem matchLoop_statsOther (o : Order) (rem : Nat) (b : BookState) (c : Nat) :
    (matchLoop o rem b c).2.2.1.stats.ordersProcessed = b.stats.ordersProcessed ∧
    (matchLoop o rem b c).2.2.1.stats.avgProcessingTimeNs
      = b.stats.avgProcessingTimeNs := by
  by_cases hs : o.side = Side.Buy
  · rw [matchLoop_buy o rem b c hs]; exact ⟨rfl, rfl⟩
  · rw [matchLoop_sell o rem b c hs]; exact ⟨rfl, rfl⟩

/-- `restOrder` never touches the stats counters. -/
theorem restOrder_stats (o : Order) (rem : Nat) (b : BookState) (c : Nat) :
    (restOrder o rem b c).1.stats = b.stats := by
  by_cases hs : o.side = Side.Buy <;> simp [restOrder, hs]

/-! ### Claim theorems -/

/-- C1: the claim says an FOK submission whose pre-check passes never
produces a partial set of fills.  The code violates it: `canFullyFill`
*skips* same-owner resting orders (`continue`) while the match loop
*breaks* at them, so with ask FIFO (owner 1, qty 2) · (owner 7, qty 5) ·
(owner 2, qty 3) at tick 100, owner 7's FOK buy for 4 passes the pre-check,
fills 2 against owner 1, stops at its own order, and discards the rest:
one partial fill of quantity 2, neither 0 nor 4. -/
theorem C1_fok_partial_execution :
    c1Aggressor.tif = TimeInForce.FOK ∧
    c1Aggressor.quantity = 4 ∧
    canFullyFill c1Aggressor c1Setup.1 = true ∧
    (submitOrder c1Aggressor c1Setup.1 c1Setup.2).1 = true ∧
    (submitOrder c1Aggressor c1Setup.1 c1Setup.2).2.1.map Fill.quantity = [2] := by
  decide

/-- C2 counterexample: the claim says a same-owner head stops all further
matching, with no fills against any subsequent level.  With asks
100 → [owner 7] and 101 → [owner 1], owner 7's IOC buy at limit 101 is
blocked at level 100 but still fills quantity 3 against order 2 at the
subsequent level 101. -/
theorem C2_counterexample :
    c2Aggressor.ownerId = 7 ∧
    c2Setup.1.asks.map (fun l => (l.1, l.2.map Order.ownerId))
      = [(100, [7]), (101, [1])] ∧
    (submitOrder c2Aggressor c2Setup.1 c2Setup.2).2.1.map
        (fun f => (f.makerOrderId, f.quantity, f.priceTick))
      = [(2, 3, 101)] := by
  decide

/-- C2 amended: when the resting order at the head of a contra level's FIFO
has the same ownerId as the incoming order, matching stops against that
level — it contributes no fills and is left unchanged — but the level walk
continues: subsequent (worse-priced) marketable levels may still match.
On the buy side the blocked level is kept and the walk proceeds over the
remaining levels; on the sell side the pass carries the blocked level into
`kept` and proceeds over the remaining levels. -/
theorem C2_smp_blocks_level_only (inc : Order) (s : MatchState) (p : Int)
    (r : Order) (q' : List Order) (rest kept : List Level)
    (hown : r.ownerId = inc.ownerId) (hrem : s.remaining ≠ 0) :
    (p ≤ inc.priceTick →
      matchBuyLevels inc s ((p, r :: q') :: rest)
        = ((matchBuyLevels inc s rest).1,
           (p, r :: q') :: (matchBuyLevels inc s rest).2)) ∧
    (inc.priceTick ≤ p →
      sellPass inc s kept ((p, r :: q') :: rest)
        = sellPass inc s ((p, r :: q') :: kept) rest) := by
  have hml := matchLevel_blocked inc p s r q' hown
  constructor
  · intro hp
    have hcond : ¬ (s.remaining = 0 ∨ ¬ p ≤ inc.priceTick) := by
      push_neg
      exact ⟨hrem, hp⟩
    rw [matchBuyLevels, if_neg hcond, hml]
    dsimp only
    rw [if_neg (by simp : ¬ (r :: q' : List Order) = [])]
  · intro hp
    have hcond : ¬ (s.remaining = 0 ∨ ¬ inc.priceTick ≤ p) := by
      push_neg
      exact ⟨hrem, hp⟩
    rw [sellPass, if_neg hcond, hml]
    dsimp only
    rw [if_neg (by simp : ¬ (r :: q' : List Order) = [])]

/-- C2 witness: the amended statement applied to the concrete blocked level
of the counterexample input. -/
theorem C2_smp_blocks_level_only_witness :
    c2WitResting.ownerId = c2Aggressor.ownerId ∧ c2WitState.remaining ≠ 0 ∧
    (((100 : Int) ≤ c2Aggressor.priceTick →
      matchBuyLevels c2Aggressor c2WitState ((100, [c2WitResting]) :: [c2WitOther])
        = ((matchBuyLevels c2Aggressor c2WitState [c2WitOther]).1,
           (100, [c2WitResting]) :: (matchBuyLevels c2Aggressor c2WitState [c2WitOther]).2)) ∧
     (c2Aggressor.priceTick ≤ (100 : Int) →
      sellPass c2Aggressor c2WitState [] ((100, [c2WitResting]) :: [c2WitOther])
        = sellPass c2Aggressor c2WitState [(100, [c2WitResting])] [c2WitOther])) :=
  ⟨by decide, by decide,
   C2_smp_blocks_level_only c2Aggressor c2WitState 100 c2WitResting [] [c2WitOther] []
     (by decide) (by decide)⟩

/-- C3: the claim (spec invariant I1) says the book is never crossed after a
public operation.  The code violates it: owner 7 rests a sell at tick 100;
owner 7's GTC buy at 100 is blocked by self-match prevention, the residual
rests, and both sides now quote tick 100 — the largest bid is not strictly
below the smallest ask. -/
theorem C3_crossed_book :
    c3Final.bids.map Prod.fst = [100] ∧
    c3Final.asks.map Prod.fst = [100] ∧
    nonCrossed c3Final = false := by
  decide

/-- C4 counterexample: the claim says a failed FOK pre-check returns
`accepted = true`.  The code returns `false`: with a lone ask of quantity 2,
an FOK buy for 5 is rejected with `submitOrder` returning `false`. -/
theorem C4_counterexample :
    c4Aggressor.tif = TimeInForce.FOK ∧
    (submitOrder c4Aggressor c4Setup.1 c4Setup.2).1 = false ∧
    (submitOrder c4Aggressor c4Setup.1 c4Setup.2).2.1 = [] ∧
    (submitOrder c4Aggressor c4Setup.1 c4Setup.2).2.2.1 = c4Setup.1 := by
  decide

/-- C4 amended: when an FOK submission fails the pre-check, `submitOrder`
returns `accepted = false` with an empty fill list and no state change
(only the clock advances by the initial timing read). -/
theorem C4_fok_reject (o : Order) (b : BookState) (c : Nat)
    (h1 : o.tif = TimeInForce.FOK) (h2 : canFullyFill o b = false) :
    submitOrder o b c = (false, [], b, c + 1) := by
  simp [submitOrder, h1, h2]

/-- C4 witness: the amended statement at the counterexample input. -/
theorem C4_fok_reject_witness :
    c4Aggressor.tif = TimeInForce.FOK ∧
    canFullyFill c4Aggressor c4Setup.1 = false ∧
    submitOrder c4Aggressor c4Setup.1 c4Setup.2
      = (false, [], c4Setup.1, c4Setup.2 + 1) :=
  ⟨by decide, by decide,
   C4_fok_reject c4Aggressor c4Setup.1 c4Setup.2 (by decide) (by decide)⟩

/-- C5: the claim (spec invariant 7) says `orderCount` always equals the
number of registry entries, decreasing when the matcher removes a fully
filled order.  The code's match loop erases filled orders from `orders_`
without touching `orderCount_`: after a resting ask of quantity 3 is fully
filled by a crossing buy, the registry is empty but `orderCount` is 1. -/
theorem C5_orderCount_mismatch :
    c5Final.orders = [] ∧ c5Final.orderCount = 1 := by
  decide

/-- C9: `modifyOrder` is definitionally cancel-then-resubmit: for every
book state and clock it produces exactly the fills and final state of
`cancelOrder` followed by `submitOrder` of an order with the new price and
quantity and the side, ownerId, type and tif (and id) of the original, and
it is the identity with an empty fill list when the id is unknown. -/
theorem C9_modify_eq_cancel_then_submit (orderId : Nat) (newPrice : Int)
    (newQty : Nat) (b : BookState) (c : Nat) :
    modifyOrder orderId newPrice newQty b c
      = cancelThenSubmitSpec orderId newPrice newQty b c := by
  unfold modifyOrder cancelThenSubmitSpec
  cases h : lookupOrder b.orders orderId with
  | none => rfl
  | some o => cases o; rfl

/-- C6: never self-fill.  Every fill a submission emits pairs the incoming
taker with a maker that was resting on the contra side of the book and is
owned by a different participant; this holds for every book state, so in
particular for every reachable one. -/
theorem C6_never_self_fill (o : Order) (b : BookState) (c : Nat) (f : Fill)
    (hf : f ∈ (submitOrder o b c).2.1) :
    f.takerOrderId = o.id ∧
    ∃ l ∈ (if o.side = Side.Buy then b.asks else b.bids), ∃ r ∈ l.2,
      r.id = f.makerOrderId ∧ r.ownerId ≠ o.ownerId := by
  have hf1 : f ∈ (matchLoop o o.quantity b (c + 1)).2.1 := by
    by_cases hrej : o.tif = TimeInForce.FOK ∧ canFullyFill o b = false
    · simp [submitOrder, hrej] at hf
    · simp only [submitOrder, if_neg hrej] at hf
      rcases hm : matchLoop o o.quantity b (c + 1) with ⟨rem, fills, b1, c2⟩
      simp only [hm] at hf
      by_cases h2 : 0 < rem ∧ (o.tif = TimeInForce.IOC ∨ o.tif = TimeInForce.FOK)
      · rw [if_pos h2] at hf
        exact hf
      · rw [if_neg h2] at hf
        rcases hr : (if 0 < rem then restOrder o rem b1 c2 else (b1, c2)) with ⟨b2, c3⟩
        simp only [hr] at hf
        exact hf
  obtain ⟨l, hl, r, hr, hid, hown, htk⟩ :=
    matchLoop_fills o o.quantity b (c + 1) f hf1
  exact ⟨htk, l, hl, r, hr, hid, hown⟩

/-- C6 witness: a buy from owner 2 against a resting ask of owner 1. -/
theorem C6_never_self_fill_witness :
    c6TheFill ∈ (submitOrder c6Aggressor c6Book 2).2.1 ∧
    (c6TheFill.takerOrderId = c6Aggressor.id ∧
     ∃ l ∈ (if c6Aggressor.side = Side.Buy then c6Book.asks else c6Book.bids),
       ∃ r ∈ l.2, r.id = c6TheFill.makerOrderId ∧
         r.ownerId ≠ c6Aggressor.ownerId) :=
  ⟨by decide, C6_never_self_fill c6Aggressor c6Book 2 c6TheFill (by decide)⟩

/-- C7 counterexample: the claim says an order violating the
`quantity > 0` precondition is rejected with `InvalidOrder` before any
state change.  The code performs no validation: a zero-quantity order is
accepted (`true`), fully processed (`ordersProcessed` becomes 1), and
nothing is rejected. -/
theorem C7_counterexample :
    c7Order.quantity = 0 ∧
    (submitOrder c7Order initialBook 0).1 = true ∧
    (submitOrder c7Order initialBook 0).2.2.1.stats.ordersProcessed = 1 ∧
    (submitOrder c7Order initialBook 0).2.2.1.orders = [] := by
  decide

/-- C7 amended: `submitOrder` performs no precondition validation and never
raises an error on matching decisions: an order with `quantity = 0` is
accepted (returns `true`), emits no fills, and leaves the resting book
unchanged — bids, asks, the order registry and `orderCount` are all
preserved — while the order is counted as processed. -/
theorem C7_no_validation (o : Order) (b : BookState) (c : Nat)
    (h : o.quantity = 0) :
    (submitOrder o b c).1 = true ∧
    (submitOrder o b c).2.1 = [] ∧
    (submitOrder o b c).2.2.1.bids = b.bids ∧
    (submitOrder o b c).2.2.1.asks = b.asks ∧
    (submitOrder o b c).2.2.1.orders = b.orders ∧
    (submitOrder o b c).2.2.1.orderCount = b.orderCount ∧
    (submitOrder o b c).2.2.1.stats.ordersProcessed
      = b.stats.ordersProcessed + 1 := by
  have hc := canFullyFill_zero o b h
  have hm := matchLoop_zero o b (c + 1)
  simp [submitOrder, h, hc, hm]

/-- C7 witness: the amended statement at the zero-quantity input. -/
theorem C7_no_validation_witness :
    c7Order.quantity = 0 ∧
    ((submitOrder c7Order initialBook 0).1 = true ∧
     (submitOrder c7Order initialBook 0).2.1 = [] ∧
     (submitOrder c7Order initialBook 0).2.2.1.bids = initialBook.bids ∧
     (submitOrder c7Order initialBook 0).2.2.1.asks = initialBook.asks ∧
     (submitOrder c7Order initialBook 0).2.2.1.orders = initialBook.orders ∧
     (submitOrder c7Order initialBook 0).2.2.1.orderCount = initialBook.orderCount ∧
     (submitOrder c7Order initialBook 0).2.2.1.stats.ordersProcessed
       = initialBook.stats.ordersProcessed + 1) :=
  ⟨by decide, C7_no_validation c7Order initialBook 0 (by decide)⟩

/-- C8 counterexample: the claim says every submission not rejected by the
FOK pre-check — including IOC submissions whose residual is discarded —
bumps `ordersProcessed` by one.  The IOC/FOK residual-discard path returns
before the stats update: an IOC buy on an empty book is accepted but
`ordersProcessed` stays 0. -/
theorem C8_counterexample :
    c8Order.tif = TimeInForce.IOC ∧
    (submitOrder c8Order initialBook 0).1 = true ∧
    initialBook.stats.ordersProcessed = 0 ∧
    (submitOrder c8Order initialBook 0).2.2.1.stats.ordersProcessed = 0 := by
  decide

/-- C8 amended: for every submission not rejected by the FOK pre-check,
`fillsGenerated` increases by exactly the number of emitted fills; but
`ordersProcessed` and the `avgProcessingTimeNs` gauge are updated only when
the submission does not take the IOC/FOK residual-discard early return.
On the early return they are unchanged; otherwise `ordersProcessed`
increases by one and the gauge stores the elapsed processing time (final
clock minus one timing read minus the start). -/
theorem C8_stats_update (o : Order) (b : BookState) (c : Nat)
    (hrej : ¬ (o.tif = TimeInForce.FOK ∧ canFullyFill o b = false)) :
    (submitOrder o b c).2.2.1.stats.fillsGenerated
      = b.stats.fillsGenerated + (submitOrder o b c).2.1.length ∧
    ((0 < (matchLoop o o.quantity b (c + 1)).1 ∧
        (o.tif = TimeInForce.IOC ∨ o.tif = TimeInForce.FOK)) →
      (submitOrder o b c).2.2.1.stats.ordersProcessed = b.stats.ordersProcessed ∧
      (submitOrder o b c).2.2.1.stats.avgProcessingTimeNs
        = b.stats.avgProcessingTimeNs) ∧
    (¬ (0 < (matchLoop o o.quantity b (c + 1)).1 ∧
        (o.tif = TimeInForce.IOC ∨ o.tif = TimeInForce.FOK)) →
      (submitOrder o b c).2.2.1.stats.ordersProcessed
        = b.stats.ordersProcessed + 1 ∧
      (submitOrder o b c).2.2.1.stats.avgProcessingTimeNs
        = (submitOrder o b c).2.2.2 - 1 - c) := by
  rcases hm : matchLoop o o.quantity b (c + 1) with ⟨rem, fills, b1, c2⟩
  have hfg : b1.stats.fillsGenerated = b.stats.fillsGenerated + fills.length := by
    have h0 := matchLoop_fillsGen o o.quantity b (c + 1)
    rw [hm] at h0
    exact h0
  have hop : b1.stats.ordersProcessed = b.stats.ordersProcessed := by
    have h0 := (matchLoop_statsOther o o.quantity b (c + 1)).1
    rw [hm] at h0
    exact h0
  have havg : b1.stats.avgProcessingTimeNs = b.stats.avgProcessingTimeNs := by
    have h0 := (matchLoop_statsOther o o.quantity b (c + 1)).2
    rw [hm] at h0
    exact h0
  dsimp only
  by_cases h2 : 0 < rem ∧ (o.tif = TimeInForce.IOC ∨ o.tif = TimeInForce.FOK)
  · have hsub : submitOrder o b c = (true, fills, b1, c2) := by
      simp [submitOrder, hrej, hm, h2]
    rw [hsub]
    exact ⟨hfg, fun _ => ⟨hop, havg⟩, fun hcon => absurd h2 hcon⟩
  · by_cases h3 : 0 < rem
    · rcases hrest : restOrder o rem b1 c2 with ⟨b2, c3⟩
      have hbs : b2.stats = b1.stats := by
        have h0 := restOrder_stats o rem b1 c2
        rw [hrest] at h0
        exact h0
      have htif : ¬ (o.tif = TimeInForce.IOC ∨ o.tif = TimeInForce.FOK) :=
        fun ht => h2 ⟨h3, ht⟩
      have hsub : submitOrder o b c
          = (true, fills,
             { b2 with stats :=
                 { b2.stats with
                     ordersProcessed := b2.stats.ordersProcessed + 1,
                     avgProcessingTimeNs := c3 - c } },
             c3 + 1) := by
        simp [submitOrder, hrej, hm, htif, h3, hrest]
      rw [hsub]
      refine ⟨?_, fun hcon => absurd hcon h2, fun _ => ⟨?_, ?_⟩⟩
      · show b2.stats.fillsGenerated = b.stats.fillsGenerated + fills.length
        rw [hbs, hfg]
      · show b2.stats.ordersProcessed + 1 = b.stats.ordersProcessed + 1
        rw [hbs, hop]
      · show c3 - c = c3 + 1 - 1 - c
        omega
    · have hsub : submitOrder o b c
          = (true, fills,
             { b1 with stats :=
                 { b1.stats with
                     ordersProcessed := b1.stats.ordersProcessed + 1,
                     avgProcessingTimeNs := c2 - c } },
             c2 + 1) := by
        simp [submitOrder, hrej, hm, h2, h3]
      rw [hsub]
      refine ⟨?_, fun hcon => absurd hcon h2, fun _ => ⟨?_, ?_⟩⟩
      · show b1.stats.fillsGenerated = b.stats.fillsGenerated + fills.length
        exact hfg
      · show b1.stats.ordersProcessed + 1 = b.stats.ordersProcessed + 1
        rw [hop]
      · show c2 - c = c2 + 1 - 1 - c
        omega

/-- C8 witness: the amended statement at a GTC buy resting on an empty
book (the stats-updating path). -/
theorem C8_stats_update_witness :
    ¬ (c8WitOrder.tif = TimeInForce.FOK ∧
        canFullyFill c8WitOrder initialBook = false) ∧
    ((submitOrder c8WitOrder initialBook 0).2.2.1.stats.fillsGenerated
        = initialBook.stats.fillsGenerated
          + (submitOrder c8WitOrder initialBook 0).2.1.length ∧
     ((0 < (matchLoop c8WitOrder c8WitOrder.quantity initialBook (0 + 1)).1 ∧
        (c8WitOrder.tif = TimeInForce.IOC ∨ c8WitOrder.tif = TimeInForce.FOK)) →
       (submitOrder c8WitOrder initialBook 0).2.2.1.stats.ordersProcessed
         = initialBook.stats.ordersProcessed ∧
       (submitOrder c8WitOrder initialBook 0).2.2.1.stats.avgProcessingTimeNs
         = initialBook.stats.avgProcessingTimeNs) ∧
     (¬ (0 < (matchLoop c8WitOrder c8WitOrder.quantity initialBook (0 + 1)).1 ∧
        (c8WitOrder.tif = TimeInForce.IOC ∨ c8WitOrder.tif = TimeInForce.FOK)) →
       (submitOrder c8WitOrder initialBook 0).2.2.1.stats.ordersProcessed
         = initialBook.stats.ordersProcessed + 1 ∧
       (submitOrder c8WitOrder initialBook 0).2.2.1.stats.avgProcessingTimeNs
         = (submitOrder c8WitOrder initialBook 0).2.2.2 - 1 - 0)) :=
  ⟨by decide, C8_stats_update c8WitOrder initialBook 0 (by decide)⟩

/-- C10: an order submitted with `quantity = 0` (violating the stated
precondition) does not fail: the FOK pre-check passes trivially, submit
returns `true`, emits no fills, and rests nothing — bids, asks and the
order registry are unchanged — for every time-in-force. -/
theorem C10_zero_quantity (o : Order) (b : BookState) (c : Nat)
    (h : o.quantity = 0) :
    canFullyFill o b = true ∧
    (submitOrder o b c).1 = true ∧
    (submitOrder o b c).2.1 = [] ∧
    (submitOrder o b c).2.2.1.bids = b.bids ∧
    (submitOrder o b c).2.2.1.asks = b.asks ∧
    (submitOrder o b c).2.2.1.orders = b.orders := by
  have hc := canFullyFill_zero o b h
  have hm := matchLoop_zero o b (c + 1)
  refine ⟨hc, ?_⟩
  simp [submitOrder, h, hc, hm]

/-- C10 witness: a zero-quantity FOK buy against a non-empty ask side. -/
theorem C10_zero_quantity_witness :
    c10Order.quantity = 0 ∧ c10Order.tif = TimeInForce.FOK ∧
    (canFullyFill c10Order c10Book = true ∧
     (submitOrder c10Order c10Book 2).1 = true ∧
     (submitOrder c10Order c10Book 2).2.1 = [] ∧
     (submitOrder c10Order c10Book 2).2.2.1.bids = c10Book.bids ∧
     (submitOrder c10Order c10Book 2).2.2.1.asks = c10Book.asks ∧
     (submitOrder c10Order c10Book 2).2.2.1.orders = c10Book.orders) :=
  ⟨by decide, by decide, C10_zero_quantity c10Order c10Book 2 (by decide)⟩
